import Mathlib

/-!
# Magic Set Editor: `util/age.hpp` and `gui/preferences_window.cpp`

A shallow embedding of the `Age` freshness stamp (a global `LONG` counter advanced by
`InterlockedIncrement`) and of the `store()` paths of the preferences dialog, followed by
the properties established about them.
-/

namespace MSE

/-! ## `util/age.hpp` -/

/-- Smallest value of the 32-bit signed type `LONG`. -/
def LONG_MIN : Int := -2147483648

/-- Largest value of the 32-bit signed type `LONG`. -/
def LONG_MAX : Int := 2147483647

/-- The values a `LONG` variable can hold. -/
def InRange (x : Int) : Prop := LONG_MIN ≤ x ∧ x ≤ LONG_MAX

instance (x : Int) : Decidable (InRange x) := by
  unfold InRange; exact inferInstance

/-- Reduction of a mathematical integer to the `LONG` that has the same low 32 bits. -/
def wrapLONG (x : Int) : Int := (x + 2147483648) % 4294967296 - 2147483648

/-- The intrinsic `InterlockedIncrement(&addend)`: one indivisible step that adds one to the
variable modulo 2^32; the first component is the value returned, the second the value left
in the variable (they are the same number). -/
def InterlockedIncrement (addend : Int) : Int × Int :=
  (wrapLONG (addend + 1), wrapLONG (addend + 1))

/-- The class `Age`: its only data member is `LONG age`. -/
structure Age where
  age : Int
deriving DecidableEq, Repr

/-- The method `Age::update`, `age = InterlockedIncrement(&new_age);`. The static member
`new_age` is passed in and handed back; the result pairs the receiver after the call with
the counter after the call. The receiver's previous stamp is overwritten without being read. -/
def Age.update (_self : Age) (new_age : Int) : Age × Int :=
  let r := InterlockedIncrement new_age
  ({ age := r.1 }, r.2)

/-- The constructor `Age::Age() { update(); }`. The member `age` is indeterminate when the
body starts; `0` stands for that content, which `update` never reads
(see `Age.update_receiver_irrelevant`). -/
def Age.ctor (new_age : Int) : Age × Int :=
  Age.update { age := 0 } new_age

/-- The implicitly generated copy constructor of `Age`: member-wise copy. -/
def Age.copy (a : Age) : Age := { age := a.age }

/-- The body of `Age::operator<`, `return age < a.age;`. -/
def Age.lt (self a : Age) : Bool := decide (self.age < a.age)

/-- The expression `x < y` at a call site: `operator<` takes its argument by value, so the
body runs on a copy of `y`. -/
def Age.less (x y : Age) : Bool := Age.lt x (Age.copy y)

/-! ### Sequential programs over `Age` variables -/

/-- Names of `Age` variables. -/
abbrev Var := Nat

/-- The operations a client can perform on `Age` objects. -/
inductive Stmt where
  /-- The declaration `Age x;`. -/
  | construct (x : Var)
  /-- The call `x.update();`. -/
  | update (x : Var)
  /-- The copy `Age dst = src;` (or the assignment `dst = src;`). -/
  | copy (dst src : Var)
  /-- The comparison `x < y`, its result discarded. -/
  | less (x y : Var)
deriving DecidableEq, Repr

/-- Program state: the static counter `Age::new_age`, the `Age` objects in scope, and a
history of every value `InterlockedIncrement` has returned so far, oldest first. -/
structure State where
  new_age : Int
  vars : Var → Option Age
  issued : List Int

/-- State at program start with the counter holding `c`: no object exists, no stamp was issued. -/
def init (c : Int) : State :=
  { new_age := c, vars := fun _ => none, issued := [] }

/-- Execution of one statement. `none` means the statement names an object that does not
exist (such a program does not compile). -/
def step : Stmt → State → Option State
  | .construct x, s =>
      let r := Age.ctor s.new_age
      some { new_age := r.2, vars := Function.update s.vars x (some r.1),
             issued := s.issued ++ [r.1.age] }
  | .update x, s =>
      match s.vars x with
      | none => none
      | some a =>
          let r := Age.update a s.new_age
          some { new_age := r.2, vars := Function.update s.vars x (some r.1),
                 issued := s.issued ++ [r.1.age] }
  | .copy dst src, s =>
      match s.vars src with
      | none => none
      | some a => some { s with vars := Function.update s.vars dst (some (Age.copy a)) }
  | .less x y, s =>
      match s.vars x, s.vars y with
      | some _, some _ => some s
      | _, _ => none

/-- Value of the comparison `x < y` in a state. -/
def evalLess (s : State) (x y : Var) : Option Bool :=
  match s.vars x, s.vars y with
  | some a, some b => some (Age.less a b)
  | _, _ => none

/-- Execution of a sequence of statements, first to last. -/
def exec : List Stmt → State → Option State
  | [], s => some s
  | st :: rest, s => (step st s).bind (exec rest)

/-- Whether a statement calls `InterlockedIncrement`. -/
def Stmt.stamps : Stmt → Bool
  | .construct _ => true
  | .update _ => true
  | .copy _ _ => false
  | .less _ _ => false

/-- Number of `Age()` and `update()` calls in a program. -/
def stampCount (prog : List Stmt) : Nat := (prog.filter Stmt.stamps).length

/-- The stamp that the `k`-th increment (counting from 1) hands out when the counter
held `c` before the first one. -/
def stampAt (c : Int) (k : Nat) : Int := wrapLONG (c + k)

/-- The stamps handed out by `n` consecutive increments starting from counter `c`. -/
def stampsFrom (c : Int) (n : Nat) : List Int :=
  (List.range n).map (fun k => stampAt c (k + 1))

/-- Every existing object carries a stamp that is recorded in the history. -/
def StampsRecorded (s : State) : Prop :=
  ∀ y b, s.vars y = some b → b.age ∈ s.issued

/-- The state reached from counter 5 by `Age v0; Age v1;`. -/
def demoState : State :=
  { new_age := 7,
    vars := Function.update (Function.update (fun _ => none) 0 (some { age := 6 })) 1
      (some { age := 7 }),
    issued := [6, 7] }

/-! ### Threads racing on the counter -/

/-- Identifiers of threads. -/
abbrev Thread := Nat

/-- State of a multi-threaded execution: the shared counter `Age::new_age` and the record
of which thread obtained which stamp, in the order of the increments. -/
structure ConcState where
  new_age : Int
  observed : List (Thread × Int)

/-- Thread `t` executes `Age()`: the indivisible `InterlockedIncrement` inside `update()`,
followed by the store of the returned value into the thread's own new object. The store
touches nothing another thread can see, so the increment is the only point of interaction
and the call is one step of the interleaving. -/
def concStep (s : ConcState) (t : Thread) : ConcState :=
  let r := Age.ctor s.new_age
  { new_age := r.2, observed := s.observed ++ [(t, r.1.age)] }

/-- Execution of an interleaving, given as the sequence of threads in the order in which
their increments take effect, from counter value `c`. -/
def runSchedule (c : Int) (sched : List Thread) : ConcState :=
  sched.foldl concStep { new_age := c, observed := [] }

/-- The stamps obtained in an interleaving, in the order of the increments. -/
def observedStamps (c : Int) (sched : List Thread) : List Int :=
  (runSchedule c sched).observed.map Prod.snd

/-- The threads that obtained the stamps, in the same order. -/
def observedThreads (c : Int) (sched : List Thread) : List Thread :=
  (runSchedule c sched).observed.map Prod.fst

/-- The sequence `sched` is an interleaving of `N` threads (numbered below `N`) that each
call `Age()` exactly `M` times. -/
def IsInterleaving (N M : Nat) (sched : List Thread) : Prop :=
  (∀ t ∈ sched, t < N) ∧ ∀ t, t < N → sched.count t = M

instance (N M : Nat) (sched : List Thread) : Decidable (IsInterleaving N M sched) := by
  unfold IsInterleaving; exact inferInstance

/-! ## `gui/preferences_window.cpp` -/

/-- The constant `wxNOT_FOUND`, returned by `GetSelection()` when nothing is selected. -/
def wxNOT_FOUND : Int := -1

/-- A package as far as the dialog reads it: `name()` and `full_name`. -/
structure Packaged where
  name : String
  full_name : String
deriving DecidableEq, Repr

/-- A `wxComboBox` as far as the pages use it: the appended entries (label and client data),
the index of the selected entry or `wxNOT_FOUND`, and the text shown by the control. -/
structure wxComboBox (α : Type) where
  items : List (String × α)
  selection : Int
  value : String

/-- A freshly created combo box: no entries, no selection, empty text. -/
def wxComboBox.create (α : Type) : wxComboBox α :=
  { items := [], selection := wxNOT_FOUND, value := "" }

/-- The call `Append(label, clientData)`. -/
def wxComboBox.Append {α : Type} (c : wxComboBox α) (label : String) (data : α) : wxComboBox α :=
  { c with items := c.items ++ [(label, data)] }

/-- The call `SetSelection(n)`. -/
def wxComboBox.SetSelection {α : Type} (c : wxComboBox α) (n : Int) : wxComboBox α :=
  { c with selection := n }

/-- The call `GetSelection()`. -/
def wxComboBox.GetSelection {α : Type} (c : wxComboBox α) : Int := c.selection

/-- The call `GetClientData(n)`; `none` is the null pointer returned for an index that is
not an entry. -/
def wxComboBox.GetClientData {α : Type} (c : wxComboBox α) (n : Int) : Option α :=
  if 0 ≤ n then (c.items[n.toNat]?).map Prod.snd else none

/-- The call `GetValue()`. -/
def wxComboBox.GetValue {α : Type} (c : wxComboBox α) : String := c.value

/-- The call `SetValue(text)`; the selection index is left alone, the pages never read it
for the boxes they call this on. -/
def wxComboBox.SetValue {α : Type} (c : wxComboBox α) (text : String) : wxComboBox α :=
  { c with value := text }

/-- The enumeration of `settings.check_updates`. -/
inductive CheckUpdates where
  | CHECK_ALWAYS
  | CHECK_IF_CONNECTED
  | CHECK_NEVER
deriving DecidableEq, Repr

/-- The members of `settings.default_stylesheet_settings` written by the dialog. A `double`
is represented by the rational number it stands for. -/
structure StyleSheetSettings where
  card_anti_alias : Bool
  card_borders : Bool
  card_draw_editing : Bool
  card_spellcheck_enabled : Bool
  card_normal_export : Bool
  card_zoom : ℚ
  export_zoom : ℚ
deriving DecidableEq

/-- The members of the global `settings` object read or written by the dialog. -/
structure Settings where
  locale : String
  open_sets_in_new_window : Bool
  default_stylesheet_settings : StyleSheetSettings
  internal_image_extension : Bool
  internal_scale : ℚ
  apprentice_location : String
  check_updates : CheckUpdates
deriving DecidableEq

/-- Outcome of `wxSscanf(text, "%u", &i)`: the input ended before anything could be
converted (return value `EOF`), the input does not start with a number (return value 0), or
a number was converted and stored in `i` (return value 1). -/
inductive ScanResult where
  | eof
  | noMatch
  | assigned (v : Int)
deriving DecidableEq, Repr

/-- The `int` returned by `wxSscanf`. -/
def ScanResult.returnValue : ScanResult → Int
  | .eof => -1
  | .noMatch => 0
  | .assigned _ => 1

/-- White space as skipped by a conversion in the "C" locale: space, tab, line feed,
vertical tab, form feed, carriage return. Other locales may add characters outside ASCII. -/
def isSpace (ch : Char) : Bool := ch.toNat == 32 || (9 ≤ ch.toNat && ch.toNat ≤ 13)

/-- Decimal digits. -/
def isDigit (ch : Char) : Bool := 48 ≤ ch.toNat && ch.toNat ≤ 57

/-- Value of a run of decimal digits. -/
def digitsValue (ds : List Char) : Nat :=
  ds.foldl (fun acc d => acc * 10 + (d.toNat - 48)) 0

/-- The characters of `text.c_str()`: everything before the first NUL character. -/
def c_str (text : String) : List Char := text.toList.takeWhile (fun ch => ch.toNat != 0)

/-- The library call `wxSscanf(text.c_str(), "%u", &i)`, after the C standard: leading white
space is skipped; if no character is left the result is `EOF`; otherwise an optional sign and
the longest run of decimal digits are read, and without a digit nothing is stored. The
unsigned value (negated after a minus sign) is stored in the `int`, which then holds the
number with the same 32 bits. The standard leaves open what is stored when the digits denote
2^64 or more; the value is then taken to be 2^64 - 1, as the GNU C library does. -/
def wxSscanf_u (text : String) : ScanResult :=
  match (c_str text).dropWhile isSpace with
  | [] => .eof
  | ch :: rest =>
      let negative := ch.toNat == 45
      let body := if ch.toNat == 45 || ch.toNat == 43 then rest else ch :: rest
      let digits := body.takeWhile isDigit
      if digits.isEmpty then .noMatch
      else
        let n : Nat := digitsValue digits
        let u : Int :=
          if 18446744073709551616 ≤ n then 18446744073709551615
          else if negative then -(n : Int) else n
        .assigned (wrapLONG u)

/-- The call `String::Format(_("%d%%"), n)`. -/
def formatPercent (n : Int) : String := toString n ++ "%"

/-- The shared body of `updateZoom`, `updateExportZoom` and `updateInternalScale` on the
cached percentage: `int i = cached; if (wxSscanf(text, "%u", &i)) cached = min(max(i,1),1000);`.
The condition is true for every return value other than 0. -/
def scanPercent (cached : Int) (text : String) : Int :=
  let r := wxSscanf_u text
  let i := match r with
    | .assigned v => v
    | _ => cached
  if r.returnValue ≠ 0 then min (max i 1) 1000 else cached

/-- The class `GlobalPreferencesPage`: the language box and the value of the check box. -/
structure GlobalPreferencesPage where
  language : wxComboBox Packaged
  open_sets_in_new_window : Bool

/-- The constructor of `GlobalPreferencesPage`, starting at `// set values`. The argument
`locales` is the vector of that name after `findMatching` and `sort`. -/
def GlobalPreferencesPage.ctor (locales : List Packaged) (settings : Settings) :
    GlobalPreferencesPage :=
  let loop := locales.foldl
    (fun (acc : wxComboBox Packaged × Int) package =>
      let language := acc.1.Append (package.name ++ ": " ++ package.full_name) package
      let language := if settings.locale = package.name then language.SetSelection acc.2
        else language
      (language, acc.2 + 1))
    (wxComboBox.create Packaged, 0)
  { language := loop.1, open_sets_in_new_window := settings.open_sets_in_new_window }

/-- The method `GlobalPreferencesPage::store`. The result is the `settings` object after
the call; `none` stands for the dereference of a null client-data pointer. -/
def GlobalPreferencesPage.store (p : GlobalPreferencesPage) (settings : Settings) :
    Option Settings :=
  let n := p.language.GetSelection
  if n = wxNOT_FOUND then some settings
  else
    match p.language.GetClientData n with
    | none => none
    | some pk =>
        let settings := { settings with locale := pk.name }
        some { settings with open_sets_in_new_window := p.open_sets_in_new_window }

/-- The class `DisplayPreferencesPage`: the values of its check boxes, the two zoom boxes
and the two cached percentages. -/
structure DisplayPreferencesPage where
  high_quality : Bool
  borders : Bool
  draw_editing : Bool
  spellcheck_enabled : Bool
  non_normal_export : Bool
  zoom : wxComboBox Unit
  zoom_int : Int
  export_zoom : wxComboBox Unit
  export_zoom_int : Int

/-- The method `DisplayPreferencesPage::updateZoom`. -/
def DisplayPreferencesPage.updateZoom (p : DisplayPreferencesPage) : DisplayPreferencesPage :=
  let s := p.zoom.GetValue
  let zoom_int := scanPercent p.zoom_int s
  { p with zoom_int := zoom_int, zoom := p.zoom.SetValue (formatPercent zoom_int) }

/-- The method `DisplayPreferencesPage::updateExportZoom`. -/
def DisplayPreferencesPage.updateExportZoom (p : DisplayPreferencesPage) :
    DisplayPreferencesPage :=
  let s := p.export_zoom.GetValue
  let export_zoom_int := scanPercent p.export_zoom_int s
  { p with export_zoom_int := export_zoom_int,
           export_zoom := p.export_zoom.SetValue (formatPercent export_zoom_int) }

/-- The handler `DisplayPreferencesPage::onZoomChange`. -/
def DisplayPreferencesPage.onZoomChange (p : DisplayPreferencesPage) : DisplayPreferencesPage :=
  p.updateZoom

/-- The handler `DisplayPreferencesPage::onExportZoomChange`. -/
def DisplayPreferencesPage.onExportZoomChange (p : DisplayPreferencesPage) :
    DisplayPreferencesPage :=
  p.updateExportZoom

/-- The handler `DisplayPreferencesPage::onSelectColumns`, whose body is empty. -/
def DisplayPreferencesPage.onSelectColumns (p : DisplayPreferencesPage) :
    DisplayPreferencesPage := p

/-- What the user can do on the display page. Typing changes the text of a box and raises
a text-changed event; picking an entry of the list puts its label in the box and raises
`EVT_COMBOBOX`; the Enter key raises `EVT_TEXT_ENTER`. -/
inductive DisplayEvent where
  | selectColumnsButton
  | zoomTyped (text : String)
  | zoomPicked (label : String)
  | zoomEnter
  | exportZoomTyped (text : String)
  | exportZoomPicked (label : String)
  | exportZoomEnter
deriving DecidableEq, Repr

/-- The event table of `DisplayPreferencesPage`, applied after the toolkit has updated the
control. The table has no entry for text-changed events, so typing runs no handler. -/
def DisplayPreferencesPage.handle (p : DisplayPreferencesPage) :
    DisplayEvent → DisplayPreferencesPage
  | .selectColumnsButton => p.onSelectColumns
  | .zoomTyped text => { p with zoom := p.zoom.SetValue text }
  | .zoomPicked label => DisplayPreferencesPage.onZoomChange { p with zoom := p.zoom.SetValue label }
  | .zoomEnter => p.onZoomChange
  | .exportZoomTyped text => { p with export_zoom := p.export_zoom.SetValue text }
  | .exportZoomPicked label =>
      DisplayPreferencesPage.onExportZoomChange { p with export_zoom := p.export_zoom.SetValue label }
  | .exportZoomEnter => p.onExportZoomChange

/-- The method `DisplayPreferencesPage::store`: the page and the `settings` object after
the call. The quotient `zoom_int / 100.0` is the rational number of that value. -/
def DisplayPreferencesPage.store (p : DisplayPreferencesPage) (settings : Settings) :
    DisplayPreferencesPage × Settings :=
  let st := settings.default_stylesheet_settings
  let st := { st with card_anti_alias := p.high_quality }
  let st := { st with card_borders := p.borders }
  let st := { st with card_draw_editing := p.draw_editing }
  let st := { st with card_spellcheck_enabled := p.spellcheck_enabled }
  let st := { st with card_normal_export := !p.non_normal_export }
  let p := p.updateZoom
  let st := { st with card_zoom := (p.zoom_int : ℚ) / 100 }
  let st := { st with export_zoom := (p.export_zoom_int : ℚ) / 100 }
  (p, { settings with default_stylesheet_settings := st })

/-- The percentage a zoom box currently shows: the number scanned from its text, clamped
to 1..1000, with the cached percentage standing in when the text holds no number. -/
def shownPercent (box : wxComboBox Unit) (cached : Int) : Int :=
  scanPercent cached box.GetValue

/-- The class `InternalPreferencesPage`: its check box, the scale box and the cached
percentage. -/
structure InternalPreferencesPage where
  internal_image_extension : Bool
  internal_scale : wxComboBox Unit
  internal_scale_int : Int

/-- The method `InternalPreferencesPage::updateInternalScale`. -/
def InternalPreferencesPage.updateInternalScale (p : InternalPreferencesPage) :
    InternalPreferencesPage :=
  let s := p.internal_scale.GetValue
  let internal_scale_int := scanPercent p.internal_scale_int s
  { p with internal_scale_int := internal_scale_int,
           internal_scale := p.internal_scale.SetValue (formatPercent internal_scale_int) }

/-- The method `InternalPreferencesPage::store`. -/
def InternalPreferencesPage.store (p : InternalPreferencesPage) (settings : Settings) :
    InternalPreferencesPage × Settings :=
  let settings := { settings with internal_image_extension := p.internal_image_extension }
  let p := p.updateInternalScale
  (p, { settings with internal_scale := (p.internal_scale_int : ℚ) / 100 })

/-- The class `DirsPreferencesPage`: the text of the `apprentice` control. -/
structure DirsPreferencesPage where
  apprentice : String

/-- The method `DirsPreferencesPage::store`. -/
def DirsPreferencesPage.store (p : DirsPreferencesPage) (settings : Settings) : Settings :=
  { settings with apprentice_location := p.apprentice }

/-- The class `UpdatePreferencesPage`: the selection index of the `check_at_startup` choice. -/
structure UpdatePreferencesPage where
  check_at_startup : Int

/-- The method `UpdatePreferencesPage::store`. -/
def UpdatePreferencesPage.store (p : UpdatePreferencesPage) (settings : Settings) : Settings :=
  let sel := p.check_at_startup
  if sel = 0 then { settings with check_updates := CheckUpdates.CHECK_ALWAYS }
  else if sel = 1 then { settings with check_updates := CheckUpdates.CHECK_IF_CONNECTED }
  else { settings with check_updates := CheckUpdates.CHECK_NEVER }

/-- The pages of the notebook of `PreferencesWindow`, in the order they are added. -/
structure PreferencesWindow where
  global : GlobalPreferencesPage
  display : DisplayPreferencesPage
  internal : InternalPreferencesPage
  dirs : DirsPreferencesPage
  updates : UpdatePreferencesPage

/-- The handler `PreferencesWindow::onOk`: `store()` on each page in notebook order. The
result is the window and the `settings` object when the dialog closes. -/
def PreferencesWindow.onOk (w : PreferencesWindow) (settings : Settings) :
    Option (PreferencesWindow × Settings) :=
  match w.global.store settings with
  | none => none
  | some settings =>
      let d := w.display.store settings
      let i := w.internal.store d.2
      let settings := w.dirs.store i.2
      let settings := w.updates.store settings
      some ({ w with display := d.1, internal := i.1 }, settings)

/-- A zoom box showing `percent` with the entries the constructors append. -/
def zoomBox (choices : List Int) (percent : Int) : wxComboBox Unit :=
  choices.foldl (fun box ch => box.Append (formatPercent ch) ())
    ((wxComboBox.create Unit).SetValue (formatPercent percent))

/-- Settings used in the examples: locale `fr`, sets open in the same window, both zooms
and the internal scale at 1. -/
def exampleSettings : Settings :=
  { locale := "fr", open_sets_in_new_window := false,
    default_stylesheet_settings :=
      { card_anti_alias := true, card_borders := true, card_draw_editing := true,
        card_spellcheck_enabled := true, card_normal_export := true,
        card_zoom := 1, export_zoom := 1 },
    internal_image_extension := true, internal_scale := 1,
    apprentice_location := "", check_updates := CheckUpdates.CHECK_NEVER }

/-- The global page opened on `exampleSettings` when the only installed locale package is
`en`, after the user has ticked the check box. -/
def tickedGlobalPage : GlobalPreferencesPage :=
  { GlobalPreferencesPage.ctor [{ name := "en", full_name := "English" }] exampleSettings with
    open_sets_in_new_window := true }

/-- The display page as constructed from `exampleSettings`: both boxes show `100%`. -/
def displayPageAt100 : DisplayPreferencesPage :=
  { high_quality := true, borders := true, draw_editing := true, spellcheck_enabled := true,
    non_normal_export := false,
    zoom := zoomBox [50, 66, 75, 100, 120, 150, 200] 100, zoom_int := 100,
    export_zoom := zoomBox [50, 66, 75, 100, 120, 150, 200] 100, export_zoom_int := 100 }

/-- The display page after the user has typed `150` into the export zoom box, without
pressing Enter and without picking an entry. -/
def typedExportZoomPage : DisplayPreferencesPage :=
  displayPageAt100.handle (DisplayEvent.exportZoomTyped "150")

/-- The display page after the user has typed `150` into the card zoom box, without
pressing Enter and without picking an entry. -/
def typedZoomPage : DisplayPreferencesPage :=
  displayPageAt100.handle (DisplayEvent.zoomTyped "150")

/-- The internal page as constructed from `exampleSettings`, after the user has typed
`5000` into the scale box. -/
def typedInternalPage : InternalPreferencesPage :=
  { internal_image_extension := true,
    internal_scale := (zoomBox [100, 200] 100).SetValue "5000",
    internal_scale_int := 100 }

/-- The remaining pages as constructed from `exampleSettings`. -/
def exampleWindow (g : GlobalPreferencesPage) (d : DisplayPreferencesPage) : PreferencesWindow :=
  { global := g, display := d,
    internal := { internal_image_extension := true, internal_scale := zoomBox [100, 200] 100,
                  internal_scale_int := 100 },
    dirs := { apprentice := "" },
    updates := { check_at_startup := 2 } }

/-- The statement of claim C11 for one update, with `cached` and `text` the cached
percentage and the text of the box before the call and `cached'` and `text'` the same after
it. The cases are given twice: by the outcome of the scan, and by the shape of the text (a
decimal numeral followed by no further digit; a first ASCII character that cannot start a
number; nothing but white space). The text after the call is the decimal numeral of the
cached percentage followed by a percent sign, and it scans back as that percentage whenever
the percentage is a value of the type `int`. -/
def PercentUpdateSpec (cached : Int) (text : String) (cached' : Int) (text' : String) : Prop :=
  (∀ i, wxSscanf_u text = ScanResult.assigned i →
    cached' = min (max i 1) 1000 ∧ 1 ≤ cached' ∧ cached' ≤ 1000) ∧
  (wxSscanf_u text = ScanResult.noMatch → cached' = cached) ∧
  (wxSscanf_u text = ScanResult.eof → cached' = min (max cached 1) 1000) ∧
  (∀ (n : Nat) (rest : String), text = toString n ++ rest →
    (∀ ch, rest.toList.head? = some ch → isDigit ch = false) → (n : Int) ≤ LONG_MAX →
    cached' = min (max (n : Int) 1) 1000) ∧
  (∀ (ch : Char) (rest : List Char), text.toList = ch :: rest → ch.toNat ≠ 0 →
    ch.toNat < 128 → isSpace ch = false → isDigit ch = false → ch.toNat ≠ 43 →
    ch.toNat ≠ 45 → cached' = cached) ∧
  ((∀ ch ∈ text.toList, isSpace ch = true) → cached' = min (max cached 1) 1000) ∧
  text' = toString cached' ++ "%" ∧
  (InRange cached' → wxSscanf_u text' = ScanResult.assigned cached') ∧
  (1 ≤ cached ∧ cached ≤ 1000 → 1 ≤ cached' ∧ cached' ≤ 1000)

/-- A display page whose cached card zoom is 2000 (constructed from a card zoom setting
of 20) after the user has typed `abc` into the card zoom box. -/
def staleZoomPage : DisplayPreferencesPage :=
  { high_quality := true, borders := true, draw_editing := true, spellcheck_enabled := true,
    non_normal_export := false,
    zoom := (zoomBox [50, 66, 75, 100, 120, 150, 200] 2000).SetValue "abc", zoom_int := 2000,
    export_zoom := zoomBox [50, 66, 75, 100, 120, 150, 200] 100, export_zoom_int := 100 }

/-! ## Basic facts -/

theorem Age.ctor_examples :
    (Age.ctor 5).1.age = 6 ∧ (Age.ctor 5).2 = 6 ∧
    (Age.ctor 2147483647).1.age = -2147483648 := by decide

theorem wxSscanf_u_examples :
    wxSscanf_u "150%" = ScanResult.assigned 150 ∧ wxSscanf_u " -5" = ScanResult.assigned (-5) ∧
    wxSscanf_u "" = ScanResult.eof ∧ wxSscanf_u "abc" = ScanResult.noMatch ∧
    wxSscanf_u "+" = ScanResult.noMatch ∧
    wxSscanf_u "4294967295" = ScanResult.assigned (-1) := by decide

theorem scanPercent_examples :
    scanPercent 100 "150" = 150 ∧ scanPercent 100 "5000%" = 1000 ∧
    scanPercent 100 "x" = 100 ∧ scanPercent 100 "0" = 1 ∧
    formatPercent 150 = "150%" := by decide

theorem observedStamps_example : observedStamps 5 [0, 1, 1, 0] = [6, 7, 8, 9] := by decide

theorem wrapLONG_inRange (x : Int) : InRange (wrapLONG x) := by
  unfold InRange wrapLONG LONG_MIN LONG_MAX
  omega

theorem wrapLONG_of_inRange {x : Int} (h : InRange x) : wrapLONG x = x := by
  unfold InRange LONG_MIN LONG_MAX at h
  unfold wrapLONG
  omega

theorem Age.update_receiver_irrelevant (a b : Age) (g : Int) :
    Age.update a g = Age.update b g := rfl

theorem wrapLONG_add_wrapLONG (x y : Int) : wrapLONG (wrapLONG x + y) = wrapLONG (x + y) := by
  unfold wrapLONG
  omega

theorem stampsFrom_length (c : Int) (n : Nat) : (stampsFrom c n).length = n := by
  simp [stampsFrom]

theorem stampsFrom_succ (c : Int) (n : Nat) :
    stampsFrom c (n + 1) = wrapLONG (c + 1) :: stampsFrom (wrapLONG (c + 1)) n := by
  unfold stampsFrom
  rw [List.range_succ_eq_map, List.map_cons, List.map_map]
  congr 1
  apply List.map_congr_left
  intro k _
  simp only [Function.comp, stampAt]
  rw [wrapLONG_add_wrapLONG]
  congr 1
  push_cast
  ring

theorem stampsFrom_getElem (c : Int) (n k : Nat) (h : k < (stampsFrom c n).length) :
    (stampsFrom c n)[k] = stampAt c (k + 1) := by
  simp [stampsFrom]

theorem step_effect {st : Stmt} {s s' : State} (h : step st s = some s') :
    (st.stamps = true → s'.new_age = wrapLONG (s.new_age + 1) ∧
        s'.issued = s.issued ++ [wrapLONG (s.new_age + 1)]) ∧
    (st.stamps = false → s'.new_age = s.new_age ∧ s'.issued = s.issued) := by
  cases st with
  | construct x =>
      simp only [step, Age.ctor, Age.update, InterlockedIncrement, Option.some.injEq] at h
      subst h
      simp [Stmt.stamps]
  | update x =>
      simp only [step] at h
      cases hx : s.vars x with
      | none => simp [hx] at h
      | some a =>
          simp only [hx, Age.update, InterlockedIncrement, Option.some.injEq] at h
          subst h
          simp [Stmt.stamps]
  | copy d x =>
      simp only [step] at h
      cases hx : s.vars x with
      | none => simp [hx] at h
      | some a =>
          simp only [hx, Option.some.injEq] at h
          subst h
          simp [Stmt.stamps]
  | less x y =>
      simp only [step] at h
      cases hx : s.vars x <;> cases hy : s.vars y <;> simp [hx, hy] at h
      subst h
      simp [Stmt.stamps]

theorem stampCount_cons (st : Stmt) (rest : List Stmt) :
    stampCount (st :: rest) = (if st.stamps then 1 else 0) + stampCount rest := by
  unfold stampCount
  by_cases h : st.stamps = true
  · simp [List.filter_cons, h]; omega
  · simp [List.filter_cons, h]

/-- Closed form of a run: the history grows by the stamps `c+1, c+2, ...` reduced to `LONG`,
one per `Age()`/`update()` call, and the counter ends at the last of them. -/
theorem exec_effect (prog : List Stmt) (s s' : State) (h : exec prog s = some s') :
    s'.issued = s.issued ++ stampsFrom s.new_age (stampCount prog) ∧
    wrapLONG s'.new_age = wrapLONG (s.new_age + stampCount prog) := by
  induction prog generalizing s with
  | nil =>
      simp only [exec, Option.some.injEq] at h
      subst h
      simp [stampCount, stampsFrom]
  | cons st rest ih =>
      simp only [exec] at h
      cases hs : step st s with
      | none => simp [hs] at h
      | some s1 =>
          simp only [hs, Option.some_bind] at h
          obtain ⟨ih1, ih2⟩ := ih s1 h
          obtain ⟨e1, e2⟩ := step_effect hs
          rw [stampCount_cons]
          cases hst : st.stamps with
          | true =>
              obtain ⟨a1, a2⟩ := e1 hst
              simp only [if_true]
              rw [Nat.add_comm 1, stampsFrom_succ, ih1, a2, a1, ih2, a1, wrapLONG_add_wrapLONG]
              refine ⟨by simp, ?_⟩
              congr 1
              push_cast
              ring
          | false =>
              obtain ⟨a1, a2⟩ := e2 hst
              simp only [Bool.false_eq_true, if_false, Nat.zero_add]
              rw [ih1, ih2, a1, a2]
              exact ⟨rfl, rfl⟩

theorem stampAt_of_noWrap {c : Int} {k n : Nat} (hc : InRange c) (hk : k ≤ n)
    (hw : c + n ≤ LONG_MAX) : stampAt c k = c + k := by
  unfold InRange LONG_MIN LONG_MAX at hc
  unfold LONG_MAX at hw
  unfold stampAt wrapLONG
  omega

theorem mem_stampsFrom {c : Int} {n : Nat} {t : Int} (h : t ∈ stampsFrom c n) :
    ∃ k, k < n ∧ t = stampAt c (k + 1) := by
  simp only [stampsFrom, List.mem_map, List.mem_range] at h
  obtain ⟨k, hk, rfl⟩ := h
  exact ⟨k, hk, rfl⟩

theorem stampsRecorded_init (c : Int) : StampsRecorded (init c) := by
  intro y b h
  simp [init] at h

theorem step_stampsRecorded {st : Stmt} {s s' : State} (h : step st s = some s')
    (inv : StampsRecorded s) : StampsRecorded s' := by
  cases st with
  | construct x =>
      simp only [step, Age.ctor, Age.update, InterlockedIncrement, Option.some.injEq] at h
      subst h
      intro y b hy
      by_cases e : y = x
      · subst e
        simp only [Function.update_same, Option.some.injEq] at hy
        subst hy
        simp
      · simp only [Function.update_noteq e] at hy
        exact List.mem_append_left _ (inv y b hy)
  | update x =>
      simp only [step] at h
      cases hx : s.vars x with
      | none => simp [hx] at h
      | some a =>
          simp only [hx, Age.update, InterlockedIncrement, Option.some.injEq] at h
          subst h
          intro y b hy
          by_cases e : y = x
          · subst e
            simp only [Function.update_same, Option.some.injEq] at hy
            subst hy
            simp
          · simp only [Function.update_noteq e] at hy
            exact List.mem_append_left _ (inv y b hy)
  | copy d x =>
      simp only [step] at h
      cases hx : s.vars x with
      | none => simp [hx] at h
      | some a =>
          simp only [hx, Option.some.injEq] at h
          subst h
          intro y b hy
          by_cases e : y = d
          · subst e
            simp only [Function.update_same, Option.some.injEq] at hy
            subst hy
            exact inv x a hx
          · simp only [Function.update_noteq e] at hy
            exact inv y b hy
  | less x y =>
      simp only [step] at h
      cases hx : s.vars x <;> cases hy : s.vars y <;> simp [hx, hy] at h
      subst h
      exact inv

theorem exec_stampsRecorded (prog : List Stmt) (s s' : State) (h : exec prog s = some s')
    (inv : StampsRecorded s) : StampsRecorded s' := by
  induction prog generalizing s with
  | nil =>
      simp only [exec, Option.some.injEq] at h
      subst h
      exact inv
  | cons st rest ih =>
      simp only [exec] at h
      cases hs : step st s with
      | none => simp [hs] at h
      | some s1 =>
          simp only [hs, Option.some_bind] at h
          exact ih s1 h (step_stampsRecorded hs inv)

/-- After a run from program start without wrap-around the counter is the start value plus
the number of stamping calls, and every stamp in the history is at most the counter. -/
theorem exec_init_noWrap {c : Int} {prog : List Stmt} {s : State} (hc : InRange c)
    (h : exec prog (init c) = some s) (hw : c + stampCount prog ≤ LONG_MAX) :
    s.issued = stampsFrom c (stampCount prog) ∧ wrapLONG s.new_age = c + stampCount prog ∧
    ∀ t ∈ s.issued, t ≤ c + stampCount prog := by
  obtain ⟨e1, e2⟩ := exec_effect prog (init c) s h
  simp only [init, List.nil_append] at e1 e2
  have hn : wrapLONG (c + stampCount prog) = c + stampCount prog :=
    stampAt_of_noWrap hc (le_refl _) hw
  refine ⟨e1, by rw [e2, hn], ?_⟩
  intro t ht
  rw [e1] at ht
  obtain ⟨k, hk, rfl⟩ := mem_stampsFrom ht
  rw [stampAt_of_noWrap hc (Nat.succ_le_of_lt hk) hw]
  push_cast
  omega

theorem step_inRange {st : Stmt} {s s' : State} (h : step st s = some s')
    (hr : InRange s.new_age) : InRange s'.new_age := by
  obtain ⟨e1, e2⟩ := step_effect h
  cases hst : st.stamps with
  | true => rw [(e1 hst).1]; exact wrapLONG_inRange _
  | false => rw [(e2 hst).1]; exact hr

theorem exec_inRange (prog : List Stmt) (s s' : State) (h : exec prog s = some s')
    (hr : InRange s.new_age) : InRange s'.new_age := by
  induction prog generalizing s with
  | nil =>
      simp only [exec, Option.some.injEq] at h
      subst h
      exact hr
  | cons st rest ih =>
      simp only [exec] at h
      cases hs : step st s with
      | none => simp [hs] at h
      | some s1 =>
          simp only [hs, Option.some_bind] at h
          exact ih s1 h (step_inRange hs hr)

theorem exec_init_counter {c : Int} {prog : List Stmt} {s : State} (hc : InRange c)
    (h : exec prog (init c) = some s) (hw : c + stampCount prog ≤ LONG_MAX) :
    s.new_age = c + stampCount prog := by
  have h1 := (exec_init_noWrap hc h hw).2.1
  rwa [wrapLONG_of_inRange (exec_inRange prog (init c) s h hc)] at h1

/-- A stamping call made after a wrap-free run from program start returns the counter plus
one, which exceeds every stamp in the history and every stamp held by an object. -/
theorem next_stamp_newest {c : Int} {prog : List Stmt} {s : State} (hc : InRange c)
    (h : exec prog (init c) = some s) (hw : c + (stampCount prog + 1) ≤ LONG_MAX) :
    wrapLONG (s.new_age + 1) = s.new_age + 1 ∧
    (∀ t ∈ s.issued, t < wrapLONG (s.new_age + 1)) ∧
    (∀ y b, s.vars y = some b → b.age < wrapLONG (s.new_age + 1)) := by
  have hw0 : c + stampCount prog ≤ LONG_MAX := by omega
  have hn := exec_init_counter hc h hw0
  have hle := (exec_init_noWrap hc h hw0).2.2
  have hwr : wrapLONG (s.new_age + 1) = s.new_age + 1 := by
    have hr := exec_inRange prog (init c) s h hc
    apply wrapLONG_of_inRange
    unfold InRange LONG_MIN LONG_MAX at *
    omega
  have hrec := exec_stampsRecorded prog (init c) s h (stampsRecorded_init c)
  refine ⟨hwr, ?_, ?_⟩
  · intro t ht
    have := hle t ht
    omega
  · intro y b hy
    have := hle b.age (hrec y b hy)
    omega

theorem step_construct_eq (x : Var) (s : State) :
    step (Stmt.construct x) s =
      some { new_age := wrapLONG (s.new_age + 1),
             vars := Function.update s.vars x (some { age := wrapLONG (s.new_age + 1) }),
             issued := s.issued ++ [wrapLONG (s.new_age + 1)] } := rfl

theorem step_update_eq (x : Var) (s : State) (a : Age) (hx : s.vars x = some a) :
    step (Stmt.update x) s =
      some { new_age := wrapLONG (s.new_age + 1),
             vars := Function.update s.vars x (some { age := wrapLONG (s.new_age + 1) }),
             issued := s.issued ++ [wrapLONG (s.new_age + 1)] } := by
  simp [step, hx, Age.update, InterlockedIncrement]

theorem Age.less_eq_true_iff (a b : Age) : Age.less a b = true ↔ a.age < b.age := by
  simp [Age.less, Age.lt, Age.copy]

theorem exec_init_issued {c : Int} {prog : List Stmt} {s : State}
    (h : exec prog (init c) = some s) : s.issued = stampsFrom c (stampCount prog) := by
  have e := (exec_effect prog (init c) s h).1
  simpa [init] using e

theorem exec_replicate_construct (x : Var) (n : Nat) (s : State) :
    ∃ s1, exec (List.replicate n (Stmt.construct x)) s = some s1 := by
  induction n generalizing s with
  | zero => exact ⟨s, rfl⟩
  | succ n ih =>
      rw [List.replicate_succ]
      simp only [exec, step_construct_eq, Option.some_bind]
      exact ih _

theorem stampCount_replicate_construct (x : Var) (n : Nat) :
    stampCount (List.replicate n (Stmt.construct x)) = n := by
  induction n with
  | zero => rfl
  | succ n ih =>
      rw [List.replicate_succ, stampCount_cons, ih]
      simp [Stmt.stamps]
      omega

theorem stampsFrom_getElem? (c : Int) (n k : Nat) (h : k < n) :
    (stampsFrom c n)[k]? = some (stampAt c (k + 1)) := by
  rw [List.getElem?_eq_getElem (by rw [stampsFrom_length]; exact h), stampsFrom_getElem]

theorem foldl_concStep (sched : List Thread) (s : ConcState) :
    (sched.foldl concStep s).observed =
      s.observed ++ List.zip sched (stampsFrom s.new_age sched.length) := by
  induction sched generalizing s with
  | nil => simp [stampsFrom]
  | cons t rest ih =>
      rw [List.foldl_cons, ih, List.length_cons, stampsFrom_succ, List.zip_cons_cons]
      simp [concStep, Age.ctor, Age.update, InterlockedIncrement]

theorem observedStamps_eq (c : Int) (sched : List Thread) :
    observedStamps c sched = stampsFrom c sched.length := by
  unfold observedStamps runSchedule
  rw [foldl_concStep]
  simp only [List.nil_append]
  rw [← List.unzip_snd, List.unzip_zip (by rw [stampsFrom_length])]

theorem observedThreads_eq (c : Int) (sched : List Thread) :
    observedThreads c sched = sched := by
  unfold observedThreads runSchedule
  rw [foldl_concStep]
  simp only [List.nil_append]
  rw [← List.unzip_fst, List.unzip_zip (by rw [stampsFrom_length])]

theorem stampsFrom_nodup (c : Int) {n : Nat} (h : n ≤ 4294967296) : (stampsFrom c n).Nodup := by
  unfold stampsFrom
  refine List.Nodup.map_on ?_ (List.nodup_range n)
  intro a ha b hb hab
  rw [List.mem_range] at ha hb
  unfold stampAt wrapLONG at hab
  omega

theorem length_eq_sum_count (N : Nat) (l : List Nat) (h : ∀ t ∈ l, t < N) :
    l.length = ∑ t in Finset.range N, l.count t := by
  induction l with
  | nil => simp
  | cons a rest ih =>
      have ha : a < N := h a (List.mem_cons_self a rest)
      have hr : ∀ t ∈ rest, t < N := fun t ht => h t (List.mem_cons_of_mem a ht)
      simp only [List.length_cons, List.count_cons, Finset.sum_add_distrib, ← ih hr]
      congr 1
      simp [Finset.sum_ite_eq, ha]

theorem IsInterleaving.length_eq {N M : Nat} {sched : List Thread}
    (h : IsInterleaving N M sched) : sched.length = N * M := by
  rw [length_eq_sum_count N sched h.1, Finset.sum_congr rfl (fun t ht => h.2 t (Finset.mem_range.mp ht))]
  simp

theorem stampsFrom_not_nodup (c : Int) {n : Nat} (h : 4294967296 < n) :
    ¬ (stampsFrom c n).Nodup := by
  intro hnd
  have h0 : 0 < (stampsFrom c n).length := by rw [stampsFrom_length]; omega
  have h1 : 4294967296 < (stampsFrom c n).length := by rw [stampsFrom_length]; exact h
  have e : (stampsFrom c n)[0] = (stampsFrom c n)[4294967296] := by
    rw [stampsFrom_getElem, stampsFrom_getElem]
    unfold stampAt wrapLONG
    omega
  have := (List.Nodup.getElem_inj_iff hnd).mp e
  omega

/-- The interleaving in which thread 0 makes all its 2^31 + 1 calls and then thread 1 makes
all of its own. -/
theorem twoThreads_isInterleaving :
    IsInterleaving 2 2147483649
      (List.replicate 2147483649 0 ++ List.replicate 2147483649 1) := by
  constructor
  · intro t ht
    rw [List.mem_append, List.mem_replicate, List.mem_replicate] at ht
    rcases ht with ⟨-, rfl⟩ | ⟨-, rfl⟩
    · exact Nat.zero_lt_two
    · exact Nat.one_lt_two
  · intro (t : Nat) (ht : t < 2)
    rw [List.count_append, List.count_replicate, List.count_replicate]
    have : t = 0 ∨ t = 1 := by omega
    rcases this with rfl | rfl <;> simp

/-! ## Properties of `Age` -/

/-- Claim C1. In a sequential run from program start, with any counter value, during which
the counter does not wrap, `Age x;` succeeds and gives `x` a stamp strictly greater than
every stamp issued earlier and than the stamp of every object existing before the call; and
two declarations `Age a; Age b;` in a row (still without wrap) make `a < b` true. -/
theorem C1_construct_strictly_newer (c : Int) (prog : List Stmt) (s : State) (x : Var)
    (hc : InRange c) (hrun : exec prog (init c) = some s)
    (hwrap : c + (stampCount prog + 1) ≤ LONG_MAX) :
    (∃ s1 a, step (Stmt.construct x) s = some s1 ∧ s1.vars x = some a ∧
        (∀ t ∈ s.issued, t < a.age) ∧
        (∀ y b, s.vars y = some b → Age.less b a = true)) ∧
    (∀ a b : Var, a ≠ b → c + (stampCount prog + 2) ≤ LONG_MAX →
        ∃ s2, exec [Stmt.construct a, Stmt.construct b] s = some s2 ∧
          evalLess s2 a b = some true) := by
  obtain ⟨hwr, h1, h2⟩ := next_stamp_newest hc hrun hwrap
  constructor
  · refine ⟨_, { age := wrapLONG (s.new_age + 1) }, step_construct_eq x s, by simp, h1, ?_⟩
    intro y b hy
    rw [Age.less_eq_true_iff]
    exact h2 y b hy
  · intro a b hab hw2
    refine ⟨{ new_age := wrapLONG (wrapLONG (s.new_age + 1) + 1),
              vars := Function.update (Function.update s.vars a
                (some { age := wrapLONG (s.new_age + 1) })) b
                (some { age := wrapLONG (wrapLONG (s.new_age + 1) + 1) }),
              issued := s.issued ++ [wrapLONG (s.new_age + 1)] ++
                [wrapLONG (wrapLONG (s.new_age + 1) + 1)] }, rfl, ?_⟩
    have hr := exec_inRange prog (init c) s hrun hc
    have hn := exec_init_counter hc hrun (by omega : c + stampCount prog ≤ LONG_MAX)
    simp only [evalLess, Function.update_same, Function.update_noteq hab]
    simp only [Age.less, Age.lt, Age.copy, Option.some.injEq, decide_eq_true_eq]
    unfold InRange LONG_MIN LONG_MAX at hr
    unfold LONG_MAX at hw2
    unfold wrapLONG
    omega

/-- Instance of C1: counter 5, after `Age v0; v0.update();`, then `Age v1;`. -/
theorem C1_construct_strictly_newer_witness :
    (∃ s1 a, step (Stmt.construct 1)
          { new_age := 7, vars := Function.update (Function.update (fun _ => none) 0
              (some { age := 6 })) 0 (some { age := 7 }), issued := [6, 7] } = some s1 ∧
        s1.vars 1 = some a ∧ (∀ t ∈ [6, 7], t < a.age) ∧
        (∀ y b, Function.update (Function.update (fun _ => none) 0
              (some { age := 6 })) 0 (some { age := 7 }) y = some b → Age.less b a = true)) ∧
    (∀ a b : Var, a ≠ b → (5 : Int) + (stampCount [Stmt.construct 0, Stmt.update 0] + 2) ≤ LONG_MAX →
        ∃ s2, exec [Stmt.construct a, Stmt.construct b]
          { new_age := 7, vars := Function.update (Function.update (fun _ => none) 0
              (some { age := 6 })) 0 (some { age := 7 }), issued := [6, 7] } = some s2 ∧
          evalLess s2 a b = some true) :=
  C1_construct_strictly_newer 5 [Stmt.construct 0, Stmt.update 0]
    { new_age := 7, vars := Function.update (Function.update (fun _ => none) 0
        (some { age := 6 })) 0 (some { age := 7 }), issued := [6, 7] } 1
    (by decide) (by rfl) (by decide)

/-- Claim C2. After a wrap-free run, `x.update()` on an existing object succeeds and the
refreshed `x` is greater than its old value, than every stamp issued before the call and than
every object that existed before the call. Scenario: `Age a; Age b; Age d;` gives `a < b` and
`b < d`, and after `a.update()` the comparison `d < a` is true. -/
theorem C2_update_makes_newest (c : Int) (prog : List Stmt) (s : State) (x : Var) (old : Age)
    (hc : InRange c) (hrun : exec prog (init c) = some s) (hx : s.vars x = some old)
    (hwrap : c + (stampCount prog + 1) ≤ LONG_MAX) :
    (∃ s1 new, step (Stmt.update x) s = some s1 ∧ s1.vars x = some new ∧
        Age.less old new = true ∧ (∀ t ∈ s.issued, t < new.age) ∧
        (∀ y b, s.vars y = some b → Age.less b new = true)) ∧
    (∀ a b d : Var, a ≠ b → a ≠ d → b ≠ d → c + (stampCount prog + 4) ≤ LONG_MAX →
        ∃ s3 s4, exec [Stmt.construct a, Stmt.construct b, Stmt.construct d] s = some s3 ∧
          evalLess s3 a b = some true ∧ evalLess s3 b d = some true ∧
          step (Stmt.update a) s3 = some s4 ∧ evalLess s4 d a = some true) := by
  obtain ⟨hwr, h1, h2⟩ := next_stamp_newest hc hrun hwrap
  constructor
  · refine ⟨_, { age := wrapLONG (s.new_age + 1) }, step_update_eq x s old hx, by simp, ?_, h1, ?_⟩
    · rw [Age.less_eq_true_iff]
      exact h2 x old hx
    · intro y b hy
      rw [Age.less_eq_true_iff]
      exact h2 y b hy
  · intro a b d hab had hbd hw4
    have hr := exec_inRange prog (init c) s hrun hc
    have hn := exec_init_counter hc hrun (by omega : c + stampCount prog ≤ LONG_MAX)
    have hba : b ≠ a := fun e => hab e.symm
    have hda : d ≠ a := fun e => had e.symm
    have hdb : d ≠ b := fun e => hbd e.symm
    refine ⟨{ new_age := wrapLONG (wrapLONG (wrapLONG (s.new_age + 1) + 1) + 1),
              vars := Function.update (Function.update (Function.update s.vars a
                (some { age := wrapLONG (s.new_age + 1) })) b
                (some { age := wrapLONG (wrapLONG (s.new_age + 1) + 1) })) d
                (some { age := wrapLONG (wrapLONG (wrapLONG (s.new_age + 1) + 1) + 1) }),
              issued := s.issued ++ [wrapLONG (s.new_age + 1)] ++
                [wrapLONG (wrapLONG (s.new_age + 1) + 1)] ++
                [wrapLONG (wrapLONG (wrapLONG (s.new_age + 1) + 1) + 1)] }, _, rfl, ?_, ?_,
            step_update_eq a _ { age := wrapLONG (s.new_age + 1) } ?_, ?_⟩
    · simp only [evalLess, Function.update_same, Function.update_noteq hab,
        Function.update_noteq had, Function.update_noteq hbd, Age.less, Age.lt, Age.copy,
        Option.some.injEq, decide_eq_true_eq]
      unfold InRange LONG_MIN LONG_MAX at hr
      unfold LONG_MAX at hw4
      unfold wrapLONG
      omega
    · simp only [evalLess, Function.update_same, Function.update_noteq hab,
        Function.update_noteq had, Function.update_noteq hbd, Age.less, Age.lt, Age.copy,
        Option.some.injEq, decide_eq_true_eq]
      unfold InRange LONG_MIN LONG_MAX at hr
      unfold LONG_MAX at hw4
      unfold wrapLONG
      omega
    · simp only [Function.update_same, Function.update_noteq hab, Function.update_noteq had]
    · simp only [evalLess, Function.update_same, Function.update_noteq hda, Age.less, Age.lt,
        Age.copy, Option.some.injEq, decide_eq_true_eq]
      unfold InRange LONG_MIN LONG_MAX at hr
      unfold LONG_MAX at hw4
      unfold wrapLONG
      omega

/-- Instance of C2: counter 5, after `Age v0; Age v1;`, then `v0.update()`. -/
theorem C2_update_makes_newest_witness :
    (∃ s1 new, step (Stmt.update 0) demoState = some s1 ∧ s1.vars 0 = some new ∧
        Age.less { age := 6 } new = true ∧ (∀ t ∈ demoState.issued, t < new.age) ∧
        (∀ y b, demoState.vars y = some b → Age.less b new = true)) ∧
    (∀ a b d : Var, a ≠ b → a ≠ d → b ≠ d →
        (5 : Int) + (stampCount [Stmt.construct 0, Stmt.construct 1] + 4) ≤ LONG_MAX →
        ∃ s3 s4, exec [Stmt.construct a, Stmt.construct b, Stmt.construct d] demoState = some s3 ∧
          evalLess s3 a b = some true ∧ evalLess s3 b d = some true ∧
          step (Stmt.update a) s3 = some s4 ∧ evalLess s4 d a = some true) :=
  C2_update_makes_newest 5 [Stmt.construct 0, Stmt.construct 1] demoState 0 { age := 6 }
    (by decide) (by rfl) (by rfl) (by decide)

/-- Claim C3. In a wrap-free sequential run from program start every `Age()`/`update()`
call issues exactly one stamp; stamps of different calls differ; an earlier call has the
smaller stamp; and of two `Age` values stamped by different calls exactly one is less
than the other. -/
theorem C3_stamps_unique_and_ordered (c : Int) (prog : List Stmt) (s : State)
    (hc : InRange c) (hrun : exec prog (init c) = some s)
    (hwrap : c + stampCount prog ≤ LONG_MAX) :
    s.issued.length = stampCount prog ∧
    ∀ (i j : Nat) (hi : i < s.issued.length) (hj : j < s.issued.length),
      (i ≠ j → s.issued[i] ≠ s.issued[j]) ∧
      (i < j → s.issued[i] < s.issued[j]) ∧
      (i ≠ j →
        (Age.less { age := s.issued[i] } { age := s.issued[j] } = true ∧
          Age.less { age := s.issued[j] } { age := s.issued[i] } = false) ∨
        (Age.less { age := s.issued[i] } { age := s.issued[j] } = false ∧
          Age.less { age := s.issued[j] } { age := s.issued[i] } = true)) := by
  have e1 := (exec_init_noWrap hc hrun hwrap).1
  have hlen : s.issued.length = stampCount prog := by rw [e1, stampsFrom_length]
  refine ⟨hlen, ?_⟩
  intro i j hi hj
  have key : ∀ (k : Nat) (hk : k < s.issued.length), s.issued[k] = c + (k + 1) := by
    intro k hk
    rw [List.getElem_of_eq e1 hk, stampsFrom_getElem]
    have := stampAt_of_noWrap (k := k + 1) hc (by omega : k + 1 ≤ stampCount prog) hwrap
    rw [this]
    push_cast
    ring
  rw [key i hi, key j hj]
  refine ⟨fun h => by omega, fun h => by omega, fun h => ?_⟩
  simp only [Age.less, Age.lt, Age.copy, decide_eq_true_eq, decide_eq_false_iff_not]
  omega

/-- Instance of C3: counter 5 and the program `Age v0; v0.update(); Age v1;`. -/
theorem C3_stamps_unique_and_ordered_witness :
    ([6, 7, 8] : List Int).length = stampCount [Stmt.construct 0, Stmt.update 0, Stmt.construct 1] ∧
    ∀ (i j : Nat) (hi : i < ([6, 7, 8] : List Int).length) (hj : j < ([6, 7, 8] : List Int).length),
      (i ≠ j → ([6, 7, 8] : List Int)[i] ≠ ([6, 7, 8] : List Int)[j]) ∧
      (i < j → ([6, 7, 8] : List Int)[i] < ([6, 7, 8] : List Int)[j]) ∧
      (i ≠ j →
        (Age.less { age := ([6, 7, 8] : List Int)[i] } { age := ([6, 7, 8] : List Int)[j] } = true ∧
          Age.less { age := ([6, 7, 8] : List Int)[j] } { age := ([6, 7, 8] : List Int)[i] } = false) ∨
        (Age.less { age := ([6, 7, 8] : List Int)[i] } { age := ([6, 7, 8] : List Int)[j] } = false ∧
          Age.less { age := ([6, 7, 8] : List Int)[j] } { age := ([6, 7, 8] : List Int)[i] } = true)) :=
  C3_stamps_unique_and_ordered 5 [Stmt.construct 0, Stmt.update 0, Stmt.construct 1]
    { new_age := 8,
      vars := Function.update (Function.update (Function.update (fun _ => none) 0
        (some { age := 6 })) 0 (some { age := 7 })) 1 (some { age := 8 }),
      issued := [6, 7, 8] }
    (by decide) (by rfl) (by decide)

/-- Claim C4. `Age::operator<` is a strict order on all `Age` values: irreflexive, asymmetric
and transitive, and `a < b` holds exactly when the stamp of `a` is less than the stamp
of `b`; evaluating it through the by-value argument copy gives the same answer. -/
theorem C4_operator_lt_strict_order :
    (∀ a : Age, Age.lt a a = false) ∧
    (∀ a b : Age, Age.lt a b = true → Age.lt b a = false) ∧
    (∀ a b d : Age, Age.lt a b = true → Age.lt b d = true → Age.lt a d = true) ∧
    (∀ a b : Age, Age.lt a b = true ↔ a.age < b.age) ∧
    (∀ a b : Age, Age.less a b = Age.lt a b) := by
  refine ⟨?_, ?_, ?_, ?_, ?_⟩
  · intro a
    simp [Age.lt]
  · intro a b h
    simp only [Age.lt, decide_eq_true_eq, decide_eq_false_iff_not] at *
    omega
  · intro a b d h1 h2
    simp only [Age.lt, decide_eq_true_eq] at *
    omega
  · intro a b
    simp [Age.lt]
  · intro a b
    rfl

/-- Claim C5. A copy of an `Age` has the same stamp; the statement `Age dst = src;` and the
comparison `x < y` (which copies its argument) run whenever their operands exist and leave
the counter `new_age` and the history of issued stamps unchanged; a statement changes the
counter exactly when it is `Age x;` or `x.update()`. -/
theorem C5_copy_preserves_stamp_and_counter :
    (∀ a : Age, (Age.copy a).age = a.age) ∧
    (∀ (dst src : Var) (s : State) (a : Age), s.vars src = some a →
        ∃ s1, step (Stmt.copy dst src) s = some s1 ∧ s1.vars dst = some a ∧
          s1.new_age = s.new_age ∧ s1.issued = s.issued ∧
          ∀ y, y ≠ dst → s1.vars y = s.vars y) ∧
    (∀ (x y : Var) (s : State) (a b : Age), s.vars x = some a → s.vars y = some b →
        step (Stmt.less x y) s = some s ∧ evalLess s x y = some (Age.lt a (Age.copy b)) ∧
          Age.copy b = b) ∧
    (∀ (st : Stmt) (s s1 : State), step st s = some s1 → InRange s.new_age →
        (s1.new_age ≠ s.new_age ↔ (∃ x, st = Stmt.construct x) ∨ (∃ x, st = Stmt.update x))) := by
  refine ⟨fun a => rfl, ?_, ?_, ?_⟩
  · intro dst src s a ha
    refine ⟨{ s with vars := Function.update s.vars dst (some (Age.copy a)) }, ?_, ?_, rfl, rfl, ?_⟩
    · simp [step, ha]
    · simp [Age.copy]
    · intro y hy
      simp [Function.update_noteq hy]
  · intro x y s a b hx hy
    refine ⟨by simp [step, hx, hy], by simp [evalLess, hx, hy, Age.less], rfl⟩
  · intro st s s1 h hr
    obtain ⟨e1, e2⟩ := step_effect h
    have hne : wrapLONG (s.new_age + 1) ≠ s.new_age := by
      unfold InRange LONG_MIN LONG_MAX at hr
      unfold wrapLONG
      omega
    cases st with
    | construct x =>
        have := (e1 rfl).1
        simp [this, hne]
    | update x =>
        have := (e1 rfl).1
        simp [this, hne]
    | copy d x =>
        have := (e2 rfl).1
        simp [this]
    | less x y =>
        have := (e2 rfl).1
        simp [this]

/-- Claim C6. `x.update()` on an existing object succeeds and leaves every other object
exactly as it was, so every comparison between two other objects keeps its value. -/
theorem C6_update_mutates_only_receiver (s : State) (x : Var) (a : Age)
    (hx : s.vars x = some a) :
    ∃ s1, step (Stmt.update x) s = some s1 ∧
      (∀ y, y ≠ x → s1.vars y = s.vars y) ∧
      (∀ y z, y ≠ x → z ≠ x → evalLess s1 y z = evalLess s y z) := by
  refine ⟨_, step_update_eq x s a hx, ?_, ?_⟩
  · intro y hy
    simp [Function.update_noteq hy]
  · intro y z hy hz
    simp [evalLess, Function.update_noteq hy, Function.update_noteq hz]

/-- Instance of C6: `v0.update()` in the state reached by `Age v0; Age v1;`. -/
theorem C6_update_mutates_only_receiver_witness :
    ∃ s1, step (Stmt.update 0) demoState = some s1 ∧
      (∀ y, y ≠ 0 → s1.vars y = demoState.vars y) ∧
      (∀ y z, y ≠ 0 → z ≠ 0 → evalLess s1 y z = evalLess demoState y z) :=
  C6_update_mutates_only_receiver demoState 0 { age := 6 } (by rfl)

/-- Claim C7, refuted as stated. From counter 0 the program of 2^32 + 1 declarations
`Age v0;` runs to completion; its first call is stamped 1, its 2^31-th call is stamped
-2^31 (a later stamp that compares less than an earlier one), and its last call is stamped 1
again (a reused stamp). -/
theorem C7_counterexample_wraparound :
    ∃ s, exec (List.replicate 4294967297 (Stmt.construct 0)) (init 0) = some s ∧
      s.issued[0]? = some 1 ∧ s.issued[2147483647]? = some (-2147483648) ∧
      s.issued[4294967296]? = some 1 := by
  obtain ⟨s, hs⟩ := exec_replicate_construct 0 4294967297 (init 0)
  have e := exec_init_issued hs
  rw [stampCount_replicate_construct] at e
  refine ⟨s, hs, ?_, ?_, ?_⟩
  · rw [e, stampsFrom_getElem? 0 4294967297 0 (by norm_num)]
    simp [stampAt, wrapLONG]
  · rw [e, stampsFrom_getElem? 0 4294967297 2147483647 (by norm_num)]
    simp [stampAt, wrapLONG]
  · rw [e, stampsFrom_getElem? 0 4294967297 4294967296 (by norm_num)]
    simp [stampAt, wrapLONG]

/-- Claim C7, amended. In every sequential run from program start the stamps of two calls
are equal exactly when the number of stamping calls from one to the other is a multiple
of 2^32; hence no stamp is reused within 2^32 consecutive calls; and the later stamp is the
greater one as long as the counter has not passed `LONG_MAX` by the later call. -/
theorem C7_stamps_repeat_only_after_wrap (c : Int) (prog : List Stmt) (s : State)
    (i j : Nat) (hc : InRange c) (hrun : exec prog (init c) = some s)
    (hi : i < s.issued.length) (hj : j < s.issued.length) (hij : i < j) :
    (s.issued[i] = s.issued[j] ↔ 4294967296 ∣ j - i) ∧
    (j - i < 4294967296 → s.issued[i] ≠ s.issued[j]) ∧
    (c + (j + 1) ≤ LONG_MAX → s.issued[i] < s.issued[j]) := by
  have e1 := exec_init_issued hrun
  have key : ∀ (k : Nat) (hk : k < s.issued.length), s.issued[k] = wrapLONG (c + (k + 1)) := by
    intro k hk
    rw [List.getElem_of_eq e1 hk, stampsFrom_getElem]
    simp [stampAt]
  rw [key i hi, key j hj]
  unfold InRange LONG_MIN LONG_MAX at hc
  unfold LONG_MAX
  unfold wrapLONG
  refine ⟨?_, ?_, ?_⟩ <;> omega

/-- Instance of the amended C7: counter 5, the program `Age v0; v0.update(); Age v1;`, and
its first and third stamping call. -/
theorem C7_stamps_repeat_only_after_wrap_witness :
    (([6, 7, 8] : List Int)[0] = ([6, 7, 8] : List Int)[2] ↔ 4294967296 ∣ 2 - 0) ∧
    (2 - 0 < 4294967296 → ([6, 7, 8] : List Int)[0] ≠ ([6, 7, 8] : List Int)[2]) ∧
    ((5 : Int) + ((2 : Nat) + 1) ≤ LONG_MAX →
      ([6, 7, 8] : List Int)[0] < ([6, 7, 8] : List Int)[2]) :=
  C7_stamps_repeat_only_after_wrap 5 [Stmt.construct 0, Stmt.update 0, Stmt.construct 1]
    { new_age := 8,
      vars := Function.update (Function.update (Function.update (fun _ => none) 0
        (some { age := 6 })) 0 (some { age := 7 })) 1 (some { age := 8 }),
      issued := [6, 7, 8] }
    0 2 (by decide) (by rfl) (by decide) (by decide) (by decide)

/-- Claim C8, refuted as stated. With two threads that each call `Age()` 2^31 + 1 times,
starting from counter 0, in the interleaving where thread 0 runs first and thread 1 second,
the first stamp obtained (by thread 0) and the stamp of increment number 2^32 + 1 (obtained
by thread 1) are both 1: two threads observe the same stamp. -/
theorem C8_counterexample_two_threads_same_stamp :
    IsInterleaving 2 2147483649
      (List.replicate 2147483649 0 ++ List.replicate 2147483649 1) ∧
    (observedThreads 0 (List.replicate 2147483649 0 ++ List.replicate 2147483649 1))[0]?
      = some 0 ∧
    (observedStamps 0 (List.replicate 2147483649 0 ++ List.replicate 2147483649 1))[0]?
      = some 1 ∧
    (observedThreads 0
      (List.replicate 2147483649 0 ++ List.replicate 2147483649 1))[4294967296]? = some 1 ∧
    (observedStamps 0
      (List.replicate 2147483649 0 ++ List.replicate 2147483649 1))[4294967296]? = some 1 := by
  have hlen : (List.replicate 2147483649 0 ++ List.replicate 2147483649 1 : List Thread).length
      = 4294967298 := by
    rw [List.length_append, List.length_replicate, List.length_replicate]
  refine ⟨twoThreads_isInterleaving, ?_, ?_, ?_, ?_⟩
  · rw [observedThreads_eq, List.getElem?_append_left (by rw [List.length_replicate]; norm_num),
      List.getElem?_replicate]
    norm_num
  · rw [observedStamps_eq, hlen, stampsFrom_getElem? 0 4294967298 0 (by norm_num)]
    simp [stampAt, wrapLONG]
  · rw [observedThreads_eq, List.getElem?_append_right (by rw [List.length_replicate]; norm_num),
      List.getElem?_replicate, List.length_replicate]
    norm_num
  · rw [observedStamps_eq, hlen, stampsFrom_getElem? 0 4294967298 4294967296 (by norm_num)]
    simp [stampAt, wrapLONG]

/-- Claim C8, amended. For every interleaving of `N` threads that each call `Age()` `M` times,
from any counter value, exactly `N * M` stamps are obtained, and they are pairwise distinct
if and only if `N * M` is at most 2^32, the number of values of a `LONG`. -/
theorem C8_concurrent_stamps_distinct (N M : Nat) (c : Int) (sched : List Thread)
    (hs : IsInterleaving N M sched) :
    (observedStamps c sched).length = N * M ∧
    ((observedStamps c sched).Nodup ↔ N * M ≤ 4294967296) := by
  have hl := hs.length_eq
  rw [observedStamps_eq, stampsFrom_length, hl]
  refine ⟨rfl, ?_, fun h => stampsFrom_nodup c h⟩
  intro hnd
  by_contra hgt
  exact stampsFrom_not_nodup c (by omega) hnd

/-- Instance of the amended C8: two threads, two calls each, interleaved as 0, 1, 1, 0. -/
theorem C8_concurrent_stamps_distinct_witness :
    (observedStamps 5 [0, 1, 1, 0]).length = 2 * 2 ∧
    ((observedStamps 5 [0, 1, 1, 0]).Nodup ↔ 2 * 2 ≤ 4294967296) :=
  C8_concurrent_stamps_distinct 2 2 5 [0, 1, 1, 0] (by decide)

/-! ## Properties of the preferences dialog -/

/-- Claim C9, evaluated on the code. With no language selected (`settings.locale` is `fr`, the
only entry is `en`) and the check box ticked, `GlobalPreferencesPage::store` returns at
`if (n == wxNOT_FOUND) return;` and leaves `settings` as it was, so
`settings.open_sets_in_new_window` stays `false` although the check box is ticked, also at
the end of `onOk`. In general `store` changes nothing when nothing is selected, and stores
both the locale name and the check box when an entry is selected. -/
theorem C9_store_skips_check_box_without_language :
    tickedGlobalPage.language.GetSelection = wxNOT_FOUND ∧
    tickedGlobalPage.open_sets_in_new_window = true ∧
    tickedGlobalPage.store exampleSettings = some exampleSettings ∧
    exampleSettings.open_sets_in_new_window = false ∧
    ((exampleWindow tickedGlobalPage displayPageAt100).onOk exampleSettings).map
      (fun r => r.2.open_sets_in_new_window) = some false ∧
    (∀ (p : GlobalPreferencesPage) (settings : Settings),
        p.language.GetSelection = wxNOT_FOUND → p.store settings = some settings) ∧
    (∀ (p : GlobalPreferencesPage) (settings : Settings) (pk : Packaged),
        p.language.GetSelection ≠ wxNOT_FOUND →
        p.language.GetClientData p.language.GetSelection = some pk →
        p.store settings = some { settings with
          locale := pk.name, open_sets_in_new_window := p.open_sets_in_new_window }) := by
  refine ⟨by decide, rfl, by rfl, rfl, by rfl, ?_, ?_⟩
  · intro p settings h
    simp [GlobalPreferencesPage.store, h]
  · intro p settings pk h1 h2
    simp [GlobalPreferencesPage.store, h1, h2]

theorem DisplayPreferencesPage.store_card_zoom (p : DisplayPreferencesPage)
    (settings : Settings) :
    (p.store settings).2.default_stylesheet_settings.card_zoom =
      (shownPercent p.zoom p.zoom_int : ℚ) / 100 := rfl

theorem DisplayPreferencesPage.store_export_zoom (p : DisplayPreferencesPage)
    (settings : Settings) :
    (p.store settings).2.default_stylesheet_settings.export_zoom =
      (p.export_zoom_int : ℚ) / 100 := rfl

theorem PreferencesWindow.onOk_export_zoom (w : PreferencesWindow) (settings s1 : Settings)
    (h : w.global.store settings = some s1) :
    (w.onOk settings).map (fun r => r.2.default_stylesheet_settings.export_zoom) =
      some (w.display.store s1).2.default_stylesheet_settings.export_zoom := by
  unfold PreferencesWindow.onOk
  rw [h]
  simp only [Option.map_some', UpdatePreferencesPage.store]
  split_ifs <;> rfl

/-- Claim C10, evaluated on the code. After the user types `150` into the export zoom box
(the event table has no handler for typing) the box shows 150 but the cached percentage is
still 100; `DisplayPreferencesPage::store` calls `updateZoom()` and not `updateExportZoom()`,
so it stores export zoom 1 and not 150/100, also at the end of `onOk`. The card zoom typed
the same way is stored as 150/100. In general `store` writes the card zoom from the shown
text and the export zoom from the cached percentage, whatever the export box shows. -/
theorem C10_store_keeps_stale_export_zoom :
    typedExportZoomPage.export_zoom.GetValue = "150" ∧
    shownPercent typedExportZoomPage.export_zoom typedExportZoomPage.export_zoom_int = 150 ∧
    (typedExportZoomPage.store exampleSettings).2.default_stylesheet_settings.export_zoom = 1 ∧
    (1 : ℚ) ≠ ((150 : Int) : ℚ) / 100 ∧
    ((exampleWindow tickedGlobalPage typedExportZoomPage).onOk exampleSettings).map
      (fun r => r.2.default_stylesheet_settings.export_zoom) = some 1 ∧
    (typedZoomPage.store exampleSettings).2.default_stylesheet_settings.card_zoom
      = ((150 : Int) : ℚ) / 100 ∧
    (∀ (p : DisplayPreferencesPage) (settings : Settings),
        (p.store settings).2.default_stylesheet_settings.card_zoom =
          (shownPercent p.zoom p.zoom_int : ℚ) / 100) ∧
    (∀ (p : DisplayPreferencesPage) (settings : Settings),
        (p.store settings).2.default_stylesheet_settings.export_zoom =
          (p.export_zoom_int : ℚ) / 100) := by
  have h1 : typedExportZoomPage.export_zoom_int = 100 := rfl
  have h2 : shownPercent typedZoomPage.zoom typedZoomPage.zoom_int = 150 := by decide
  refine ⟨by decide, by decide, ?_, by norm_num, ?_, ?_,
    DisplayPreferencesPage.store_card_zoom, DisplayPreferencesPage.store_export_zoom⟩
  · rw [DisplayPreferencesPage.store_export_zoom, h1]
    norm_num
  · rw [PreferencesWindow.onOk_export_zoom _ _ exampleSettings (by rfl)]
    have e : (exampleWindow tickedGlobalPage typedExportZoomPage).display = typedExportZoomPage := rfl
    rw [e, DisplayPreferencesPage.store_export_zoom, h1]
    norm_num
  · rw [DisplayPreferencesPage.store_card_zoom, h2]

theorem wxSscanf_u_saturates :
    wxSscanf_u "18446744073709551716" = ScanResult.assigned (-1) ∧
    wxSscanf_u "18446744073709551615%" = ScanResult.assigned (-1) ∧
    wxSscanf_u "4294967396" = ScanResult.assigned 100 := by decide

theorem scanPercent_assigned {cached : Int} {text : String} {i : Int}
    (h : wxSscanf_u text = ScanResult.assigned i) :
    scanPercent cached text = min (max i 1) 1000 := by
  simp [scanPercent, h, ScanResult.returnValue]

theorem scanPercent_noMatch {cached : Int} {text : String}
    (h : wxSscanf_u text = ScanResult.noMatch) : scanPercent cached text = cached := by
  simp [scanPercent, h, ScanResult.returnValue]

theorem scanPercent_eof {cached : Int} {text : String}
    (h : wxSscanf_u text = ScanResult.eof) :
    scanPercent cached text = min (max cached 1) 1000 := by
  simp [scanPercent, h, ScanResult.returnValue]

theorem clamp_inRange (i : Int) : 1 ≤ min (max i 1) 1000 ∧ min (max i 1) 1000 ≤ 1000 := by
  omega

/-- The percentage stays in 1..1000 once it is there, whatever the text. -/
theorem scanPercent_inRange {cached : Int} (text : String)
    (h : 1 ≤ cached ∧ cached ≤ 1000) :
    1 ≤ scanPercent cached text ∧ scanPercent cached text ≤ 1000 := by
  cases hr : wxSscanf_u text with
  | eof => rw [scanPercent_eof hr]; exact clamp_inRange _
  | noMatch => rw [scanPercent_noMatch hr]; exact h
  | assigned i => rw [scanPercent_assigned hr]; exact clamp_inRange _

/-- The step of `digitsValue`. -/
theorem digitChar_spec : ∀ k : Nat, k < 10 →
    isDigit (Nat.digitChar k) = true ∧ (Nat.digitChar k).toNat = 48 + k := by
  decide

theorem isDigit_bounds {ch : Char} (h : isDigit ch = true) : 48 ≤ ch.toNat ∧ ch.toNat ≤ 57 := by
  simpa [isDigit] using h

theorem toDigitsCore_spec (fuel : Nat) : ∀ (n : Nat) (ds : List Char), n < fuel →
    ∃ L : List Char, Nat.toDigitsCore 10 fuel n ds = L ++ ds ∧ L ≠ [] ∧
      (∀ ch ∈ L, isDigit ch = true) ∧
      (∀ acc : Nat, L.foldl (fun acc d => acc * 10 + (d.toNat - 48)) acc
        = acc * 10 ^ L.length + n) ∧
      (n ≠ 0 → ∀ ch, L.head? = some ch → ch.toNat ≠ 48) := by
  induction fuel with
  | zero => intro n ds h; omega
  | succ fuel ih =>
      intro n ds h
      have hd := digitChar_spec (n % 10) (Nat.mod_lt n (by decide))
      unfold Nat.toDigitsCore
      by_cases h0 : n / 10 = 0
      · simp only [h0, if_true]
        have hn : n % 10 = n := by omega
        refine ⟨[Nat.digitChar (n % 10)], rfl, by simp, ?_, ?_, ?_⟩
        · intro ch hch
          rw [List.mem_singleton] at hch
          rw [hch]; exact hd.1
        · intro acc
          simp only [List.foldl_cons, List.foldl_nil, List.length_singleton, pow_one, hd.2]
          omega
        · intro hne ch hch
          simp only [List.head?_cons, Option.some.injEq] at hch
          rw [← hch, hd.2]
          omega
      · simp only [h0, if_false]
        obtain ⟨L, e, hne, hdig, hval, hlead⟩ :=
          ih (n / 10) (Nat.digitChar (n % 10) :: ds) (by omega)
        refine ⟨L ++ [Nat.digitChar (n % 10)], by rw [e]; simp, by simp, ?_, ?_, ?_⟩
        · intro ch hch
          rw [List.mem_append, List.mem_singleton] at hch
          rcases hch with hch | hch
          · exact hdig ch hch
          · rw [hch]; exact hd.1
        · intro acc
          rw [List.foldl_append, hval acc]
          simp only [List.foldl_cons, List.foldl_nil, List.length_append, List.length_singleton,
            hd.2, pow_succ]
          have := Nat.div_add_mod n 10
          have e2 : 48 + n % 10 - 48 = n % 10 := by omega
          rw [e2]
          nlinarith [Nat.div_add_mod n 10]
        · intro _ ch hch
          cases L with
          | nil => exact absurd rfl hne
          | cons a L' =>
              simp only [List.cons_append, List.head?_cons, Option.some.injEq] at hch
              exact hlead h0 ch (by simp [hch])

/-- The decimal numeral of a natural number: a non-empty run of digits with that value. -/
theorem toDigits_spec (n : Nat) :
    Nat.toDigits 10 n ≠ [] ∧ (∀ ch ∈ Nat.toDigits 10 n, isDigit ch = true) ∧
    digitsValue (Nat.toDigits 10 n) = n ∧
    (n ≠ 0 → ∀ ch, (Nat.toDigits 10 n).head? = some ch → ch.toNat ≠ 48) := by
  obtain ⟨L, e, hne, hdig, hval, hlead⟩ := toDigitsCore_spec (n + 1) n [] (Nat.lt_succ_self n)
  have e2 : Nat.toDigits 10 n = L := by
    unfold Nat.toDigits
    rw [e, List.append_nil]
  rw [e2]
  refine ⟨hne, hdig, ?_, hlead⟩
  unfold digitsValue
  rw [hval 0]
  omega

theorem takeWhile_isDigit_append {L R : List Char} (hL : ∀ ch ∈ L, isDigit ch = true)
    (hR : ∀ ch, R.head? = some ch → isDigit ch = false) :
    (L ++ R).takeWhile isDigit = L := by
  rw [List.takeWhile_append_of_pos hL]
  cases R with
  | nil => simp
  | cons r rs =>
      have := hR r rfl
      simp [List.takeWhile_cons, this]

/-- Scan of a text whose C string is a digit run followed by a character that is no digit. -/
theorem wxSscanf_u_of_digits {text : String} {L R : List Char} (hne : L ≠ [])
    (hL : ∀ ch ∈ L, isDigit ch = true) (hR : ∀ ch, R.head? = some ch → isDigit ch = false)
    (h : c_str text = L ++ R) :
    wxSscanf_u text = ScanResult.assigned (wrapLONG
      (if 18446744073709551616 ≤ digitsValue L then 18446744073709551615
        else (digitsValue L : Int))) := by
  cases L with
  | nil => exact absurd rfl hne
  | cons a L' =>
      have ha := isDigit_bounds (hL a (List.mem_cons_self a L'))
      have hsp : isSpace a = false := by
        simp only [isSpace, Bool.or_eq_false_iff, beq_eq_false_iff_ne, Bool.and_eq_false_iff,
          decide_eq_false_iff_not]
        omega
      have h45 : (a.toNat == 45) = false := by
        rw [beq_eq_false_iff_ne]; omega
      have h43 : (a.toNat == 43) = false := by
        rw [beq_eq_false_iff_ne]; omega
      have htw : (a :: (L' ++ R)).takeWhile isDigit = a :: L' := by
        have := takeWhile_isDigit_append hL hR
        simpa using this
      unfold wxSscanf_u
      rw [h, List.cons_append, List.dropWhile_cons_of_neg (by simp [hsp])]
      simp only [h45, h43, Bool.or_self, Bool.false_eq_true, if_false, htw, List.isEmpty_cons]

/-- Scan of a text whose C string is a minus sign, a digit run and then no digit. -/
theorem wxSscanf_u_of_minus_digits {text : String} {L R : List Char} (hne : L ≠ [])
    (hL : ∀ ch ∈ L, isDigit ch = true) (hR : ∀ ch, R.head? = some ch → isDigit ch = false)
    (h : c_str text = Char.ofNat 45 :: (L ++ R)) :
    wxSscanf_u text = ScanResult.assigned (wrapLONG
      (if 18446744073709551616 ≤ digitsValue L then 18446744073709551615
        else -(digitsValue L : Int))) := by
  have htw := takeWhile_isDigit_append hL hR
  have hemp : L.isEmpty = false := by
    cases L with
    | nil => exact absurd rfl hne
    | cons a L' => rfl
  unfold wxSscanf_u
  rw [h, List.dropWhile_cons_of_neg (by decide)]
  have h45 : ((Char.ofNat 45).toNat == 45) = true := by decide
  simp only [h45, Bool.true_or, if_true, htw, hemp, Bool.false_eq_true, if_false]

theorem toString_nat_toList (n : Nat) : (toString n).toList = Nat.toDigits 10 n := rfl

theorem c_str_head_not_digit (rest : String)
    (hrest : ∀ ch, rest.toList.head? = some ch → isDigit ch = false) :
    ∀ ch, (c_str rest).head? = some ch → isDigit ch = false := by
  intro ch hch
  unfold c_str at hch
  rw [List.head?_takeWhile, Option.filter_eq_some] at hch
  exact hrest ch hch.1

theorem c_str_append_of_digits (a rest : String) (ha : ∀ ch ∈ a.toList, isDigit ch = true) :
    c_str (a ++ rest) = a.toList ++ c_str rest := by
  unfold c_str
  have : (a ++ rest).toList = a.toList ++ rest.toList := String.data_append a rest
  rw [this, List.takeWhile_append_of_pos]
  intro ch hch
  have := isDigit_bounds (ha ch hch)
  simp only [bne_iff_ne, ne_eq]
  omega

/-- A text that starts with the decimal numeral of `n` and goes on with something that is
no digit scans as `n` (with the same 32 bits). -/
theorem wxSscanf_u_numeral (n : Nat) (rest : String)
    (hrest : ∀ ch, rest.toList.head? = some ch → isDigit ch = false)
    (hn : n < 18446744073709551616) :
    wxSscanf_u (toString n ++ rest) = ScanResult.assigned (wrapLONG n) := by
  obtain ⟨hne, hdig, hval, -⟩ := toDigits_spec n
  have h := c_str_append_of_digits (toString n) rest (by rw [toString_nat_toList]; exact hdig)
  rw [toString_nat_toList] at h
  rw [wxSscanf_u_of_digits hne hdig (c_str_head_not_digit rest hrest) h, hval,
    if_neg (by omega)]

theorem formatPercent_ofNat (m : Nat) : formatPercent (Int.ofNat m) = toString m ++ "%" := rfl

theorem formatPercent_negSucc (m : Nat) :
    formatPercent (Int.negSucc m) = "-" ++ toString (m + 1) ++ "%" := rfl

/-- What `%d%%` prints always scans, with `%u`, as a number, and as the number printed when
that is a value of the type `int`. -/
theorem wxSscanf_u_formatPercent (z : Int) :
    ∃ v, wxSscanf_u (formatPercent z) = ScanResult.assigned v ∧ (InRange z → v = z) := by
  cases z with
  | ofNat m =>
      obtain ⟨hne, hdig, hval, -⟩ := toDigits_spec m
      have h := c_str_append_of_digits (toString m) "%"
        (by rw [toString_nat_toList]; exact hdig)
      rw [toString_nat_toList] at h
      have hs := wxSscanf_u_of_digits hne hdig (c_str_head_not_digit "%" (by decide)) h
      rw [hval] at hs
      refine ⟨_, hs, ?_⟩
      intro hr
      unfold InRange LONG_MIN LONG_MAX at hr
      have hm : (Int.ofNat m : Int) = (m : Int) := rfl
      rw [hm] at hr ⊢
      rw [if_neg (by omega)]
      unfold wrapLONG
      omega
  | negSucc m =>
      obtain ⟨hne, hdig, hval, -⟩ := toDigits_spec (m + 1)
      have hR : ∀ ch, (c_str "%").head? = some ch → isDigit ch = false := by decide
      have h : c_str (formatPercent (Int.negSucc m))
          = Char.ofNat 45 :: (Nat.toDigits 10 (m + 1) ++ c_str "%") := by
        rw [formatPercent_negSucc]
        unfold c_str
        have e : ("-" ++ toString (m + 1) ++ "%").toList
            = Char.ofNat 45 :: (Nat.toDigits 10 (m + 1) ++ "%".toList) := rfl
        rw [e, List.takeWhile_cons_of_pos (by decide), List.takeWhile_append_of_pos]
        intro ch hch
        have := isDigit_bounds (hdig ch hch)
        simp only [bne_iff_ne, ne_eq]
        omega
      have hs := wxSscanf_u_of_minus_digits hne hdig hR h
      rw [hval] at hs
      refine ⟨_, hs, ?_⟩
      intro hr
      unfold InRange LONG_MIN LONG_MAX at hr
      have hm : Int.negSucc m = -((m + 1 : Nat) : Int) := rfl
      rw [hm] at hr ⊢
      rw [if_neg (by omega)]
      unfold wrapLONG
      omega

theorem wxSscanf_u_noMatch_of_head {text : String} {ch : Char} {rest : List Char}
    (h : text.toList = ch :: rest) (h0 : ch.toNat ≠ 0) (hsp : isSpace ch = false)
    (hd : isDigit ch = false) (h43 : ch.toNat ≠ 43) (h45 : ch.toNat ≠ 45) :
    wxSscanf_u text = ScanResult.noMatch := by
  unfold wxSscanf_u c_str
  rw [h, List.takeWhile_cons_of_pos (by simpa using h0),
    List.dropWhile_cons_of_neg (by simp [hsp])]
  have e45 : (ch.toNat == 45) = false := by rw [beq_eq_false_iff_ne]; exact h45
  have e43 : (ch.toNat == 43) = false := by rw [beq_eq_false_iff_ne]; exact h43
  simp only [e45, e43, Bool.or_self, Bool.false_eq_true, if_false]
  rw [List.takeWhile_cons_of_neg (by simp [hd])]
  rfl

theorem wxSscanf_u_eof_of_blank {text : String} (h : ∀ ch ∈ text.toList, isSpace ch = true) :
    wxSscanf_u text = ScanResult.eof := by
  unfold wxSscanf_u
  have : (c_str text).dropWhile isSpace = [] := by
    rw [List.dropWhile_eq_nil_iff]
    intro ch hch
    exact h ch (List.takeWhile_subset _ hch)
  rw [this]

/-- Every percentage from 1 to 1000, printed with `%d%%`, scans back as itself. -/
theorem wxSscanf_u_formatPercent_nat :
    ∀ n : Nat, n < 1001 → 1 ≤ n →
      wxSscanf_u (formatPercent (n : Int)) = ScanResult.assigned n := by
  intro n h1 _
  obtain ⟨v, hv, hz⟩ := wxSscanf_u_formatPercent (n : Int)
  rw [hv, hz (by unfold InRange LONG_MIN LONG_MAX; omega)]

theorem scanPercent_formatPercent {z : Int} (h : 1 ≤ z ∧ z ≤ 1000) :
    scanPercent z (formatPercent z) = z := by
  obtain ⟨n, rfl⟩ := Int.eq_ofNat_of_zero_le (by omega : 0 ≤ z)
  rw [scanPercent_assigned (wxSscanf_u_formatPercent_nat n (by omega) (by omega))]
  omega

/-- Outside 1..1000 the second application can differ from the first: a cached 2000 with a
text that holds no number stays 2000 and is shown as `2000%`, which scans as 2000 and is
clamped to 1000 the next time. -/
theorem scanPercent_twice_outside_range :
    scanPercent 2000 "abc" = 2000 ∧ scanPercent 2000 (formatPercent 2000) = 1000 := by
  decide

theorem DisplayPreferencesPage.updateZoom_twice (d : DisplayPreferencesPage)
    (h : 1 ≤ d.updateZoom.zoom_int ∧ d.updateZoom.zoom_int ≤ 1000) :
    d.updateZoom.updateZoom = d.updateZoom := by
  have e := scanPercent_formatPercent h
  simp only [DisplayPreferencesPage.updateZoom, wxComboBox.GetValue, wxComboBox.SetValue] at e ⊢
  rw [e]

theorem DisplayPreferencesPage.updateExportZoom_twice (d : DisplayPreferencesPage)
    (h : 1 ≤ d.updateExportZoom.export_zoom_int ∧ d.updateExportZoom.export_zoom_int ≤ 1000) :
    d.updateExportZoom.updateExportZoom = d.updateExportZoom := by
  have e := scanPercent_formatPercent h
  simp only [DisplayPreferencesPage.updateExportZoom, wxComboBox.GetValue,
    wxComboBox.SetValue] at e ⊢
  rw [e]

theorem InternalPreferencesPage.updateInternalScale_twice (n : InternalPreferencesPage)
    (h : 1 ≤ n.updateInternalScale.internal_scale_int ∧
      n.updateInternalScale.internal_scale_int ≤ 1000) :
    n.updateInternalScale.updateInternalScale = n.updateInternalScale := by
  have e := scanPercent_formatPercent h
  simp only [InternalPreferencesPage.updateInternalScale, wxComboBox.GetValue,
    wxComboBox.SetValue] at e ⊢
  rw [e]

theorem percentUpdateSpec_scanPercent (cached : Int) (text : String) :
    PercentUpdateSpec cached text (scanPercent cached text)
      (formatPercent (scanPercent cached text)) := by
  refine ⟨?_, ?_, ?_, ?_, ?_, ?_, rfl, ?_, scanPercent_inRange text⟩
  · intro i hi
    rw [scanPercent_assigned hi]
    exact ⟨rfl, clamp_inRange i⟩
  · intro hn
    exact scanPercent_noMatch hn
  · intro he
    exact scanPercent_eof he
  · intro n rest ht hrest hn
    have hs := wxSscanf_u_numeral n rest hrest (by unfold LONG_MAX at hn; omega)
    rw [← ht, wrapLONG_of_inRange] at hs
    · exact scanPercent_assigned hs
    · unfold InRange LONG_MIN
      exact ⟨by omega, hn⟩
  · intro ch rest ht h0 _ hsp hd h43 h45
    exact scanPercent_noMatch (wxSscanf_u_noMatch_of_head ht h0 hsp hd h43 h45)
  · intro hb
    exact scanPercent_eof (wxSscanf_u_eof_of_blank hb)
  · intro hr
    obtain ⟨v, hv, hz⟩ := wxSscanf_u_formatPercent (scanPercent cached text)
    rw [hv, hz hr]

/-- A second update returns the same percentage exactly when the first one left a
percentage in 1..1000. -/
theorem scanPercent_twice_iff (c : Int) :
    (scanPercent c (formatPercent c) = c ∧
      formatPercent (scanPercent c (formatPercent c)) = formatPercent c) ↔
    (1 ≤ c ∧ c ≤ 1000) := by
  constructor
  · rintro ⟨h, -⟩
    obtain ⟨v, hv, -⟩ := wxSscanf_u_formatPercent c
    rw [scanPercent_assigned hv] at h
    have := clamp_inRange v
    omega
  · intro h
    rw [scanPercent_formatPercent h]
    exact ⟨rfl, rfl⟩

/-- Claim C11, refuted as stated. With a cached card zoom of 2000 and the text `abc` in the
box, `updateZoom` leaves the cached percentage at 2000 and shows `2000%`; a second
`updateZoom` scans 2000, clamps it, and leaves 1000 and `1000%`. Twice is not once. -/
theorem C11_counterexample_second_update_differs :
    wxSscanf_u staleZoomPage.zoom.GetValue = ScanResult.noMatch ∧
    staleZoomPage.updateZoom.zoom_int = 2000 ∧
    staleZoomPage.updateZoom.zoom.GetValue = "2000%" ∧
    staleZoomPage.updateZoom.updateZoom.zoom_int = 1000 ∧
    staleZoomPage.updateZoom.updateZoom.zoom.GetValue = "1000%" := by
  decide

/-- Claim C11, amended. For each of `updateZoom`, `updateExportZoom` and
`updateInternalScale` the update meets `PercentUpdateSpec`: a text that scans as `i` gives
the cached percentage `min(max(i,1),1000)`, in 1..1000; a scan result 0 leaves it unchanged;
a blank text clamps it; the text becomes the cached percentage followed by `%`; a cached
percentage in 1..1000 stays in 1..1000. Applying the update twice gives the same cached
percentage and text as applying it once if and only if the cached percentage after the
first application is in 1..1000, and then the whole page is the same. -/
theorem C11_update_clamps_percentage (d : DisplayPreferencesPage)
    (n : InternalPreferencesPage) :
    (PercentUpdateSpec d.zoom_int d.zoom.GetValue
        d.updateZoom.zoom_int d.updateZoom.zoom.GetValue ∧
      ((d.updateZoom.updateZoom.zoom_int = d.updateZoom.zoom_int ∧
          d.updateZoom.updateZoom.zoom.GetValue = d.updateZoom.zoom.GetValue) ↔
        (1 ≤ d.updateZoom.zoom_int ∧ d.updateZoom.zoom_int ≤ 1000)) ∧
      (1 ≤ d.updateZoom.zoom_int ∧ d.updateZoom.zoom_int ≤ 1000 →
        d.updateZoom.updateZoom = d.updateZoom)) ∧
    (PercentUpdateSpec d.export_zoom_int d.export_zoom.GetValue
        d.updateExportZoom.export_zoom_int d.updateExportZoom.export_zoom.GetValue ∧
      ((d.updateExportZoom.updateExportZoom.export_zoom_int
            = d.updateExportZoom.export_zoom_int ∧
          d.updateExportZoom.updateExportZoom.export_zoom.GetValue
            = d.updateExportZoom.export_zoom.GetValue) ↔
        (1 ≤ d.updateExportZoom.export_zoom_int ∧ d.updateExportZoom.export_zoom_int ≤ 1000)) ∧
      (1 ≤ d.updateExportZoom.export_zoom_int ∧ d.updateExportZoom.export_zoom_int ≤ 1000 →
        d.updateExportZoom.updateExportZoom = d.updateExportZoom)) ∧
    (PercentUpdateSpec n.internal_scale_int n.internal_scale.GetValue
        n.updateInternalScale.internal_scale_int n.updateInternalScale.internal_scale.GetValue ∧
      ((n.updateInternalScale.updateInternalScale.internal_scale_int
            = n.updateInternalScale.internal_scale_int ∧
          n.updateInternalScale.updateInternalScale.internal_scale.GetValue
            = n.updateInternalScale.internal_scale.GetValue) ↔
        (1 ≤ n.updateInternalScale.internal_scale_int ∧
          n.updateInternalScale.internal_scale_int ≤ 1000)) ∧
      (1 ≤ n.updateInternalScale.internal_scale_int ∧
          n.updateInternalScale.internal_scale_int ≤ 1000 →
        n.updateInternalScale.updateInternalScale = n.updateInternalScale)) := by
  refine ⟨⟨?_, ?_, d.updateZoom_twice⟩, ⟨?_, ?_, d.updateExportZoom_twice⟩,
    ⟨?_, ?_, n.updateInternalScale_twice⟩⟩
  · exact percentUpdateSpec_scanPercent d.zoom_int d.zoom.GetValue
  · exact scanPercent_twice_iff d.updateZoom.zoom_int
  · exact percentUpdateSpec_scanPercent d.export_zoom_int d.export_zoom.GetValue
  · exact scanPercent_twice_iff d.updateExportZoom.export_zoom_int
  · exact percentUpdateSpec_scanPercent n.internal_scale_int n.internal_scale.GetValue
  · exact scanPercent_twice_iff n.updateInternalScale.internal_scale_int

/-- Instance of the amended C11: the card zoom box shows `150` over a cached 100, and the
internal scale box shows `5000` over a cached 100. -/
theorem C11_update_clamps_percentage_witness :
    typedZoomPage.updateZoom.zoom_int = min (max ((150 : Nat) : Int) 1) 1000 ∧
    typedZoomPage.updateZoom.zoom.GetValue = toString typedZoomPage.updateZoom.zoom_int ++ "%" ∧
    typedZoomPage.updateZoom.updateZoom = typedZoomPage.updateZoom ∧
    typedInternalPage.updateInternalScale.internal_scale_int
      = min (max ((5000 : Nat) : Int) 1) 1000 ∧
    typedInternalPage.updateInternalScale.updateInternalScale
      = typedInternalPage.updateInternalScale :=
  ⟨(C11_update_clamps_percentage typedZoomPage typedInternalPage).1.1.2.2.2.1 150 ""
      (by decide) (by decide) (by decide),
   (C11_update_clamps_percentage typedZoomPage typedInternalPage).1.1.2.2.2.2.2.2.1,
   (C11_update_clamps_percentage typedZoomPage typedInternalPage).1.2.2 (by decide),
   (C11_update_clamps_percentage typedZoomPage typedInternalPage).2.2.1.2.2.2.1 5000 ""
      (by decide) (by decide) (by decide),
   (C11_update_clamps_percentage typedZoomPage typedInternalPage).2.2.2.2 (by decide)⟩

end MSE
